import Mathlib

/-!
Verification of the analysis / insight / report pipeline of
`src/Ai_story_teller.py` (classes `DataAnalyzer` and `ReportGenerator`).

Modelling conventions:

* Tabular data (`pandas.DataFrame`) is a list of named columns of optional
  cells (`none` models a null/NaN entry).
* All numeric computation of the source runs on IEEE floats; the embedding
  idealizes it as exact rational arithmetic.  Rationals are represented by
  the executable type `Frac` (integer numerator, positive natural
  denominator) so that every definition reduces in the kernel; `Frac.toRat`
  bridges to Mathlib's `ℚ` for specification-side statements.
* A float `NaN` produced by a degenerate statistic (sample std of a single
  value, 0/0 missing percentage on an empty frame, correlation with zero
  variance) is modelled explicitly as `Option.none` or, for correlations,
  by a zero denominator guard — never as a junk number.
-/

/-- Executable rational numbers: numerator over a positive denominator.
Representations are not normalized; value-level equality is `Frac.toRat`
equality.  All arithmetic avoids `Nat.gcd`, so terms reduce in the kernel. -/
structure Frac where
  num : Int
  den : Nat
  dpos : 0 < den

instance : DecidableEq Frac := fun a b =>
  decidable_of_iff (a.num = b.num ∧ a.den = b.den) (by cases a; cases b; simp)

namespace Frac

def ofInt (n : Int) : Frac := ⟨n, 1, Nat.one_pos⟩

instance : OfNat Frac n := ⟨ofInt n⟩

def add (a b : Frac) : Frac :=
  ⟨a.num * b.den + b.num * a.den, a.den * b.den, Nat.mul_pos a.dpos b.dpos⟩

def neg (a : Frac) : Frac := ⟨-a.num, a.den, a.dpos⟩

def sub (a b : Frac) : Frac := a.add b.neg

def mul (a b : Frac) : Frac :=
  ⟨a.num * b.num, a.den * b.den, Nat.mul_pos a.dpos b.dpos⟩

/-- Multiplicative inverse; `inv 0 = 0` (division by zero never carries
meaning in the modelled code paths, all of which are guarded). -/
def inv (a : Frac) : Frac :=
  if h : a.num = 0 then ofInt 0
  else ⟨(if a.num < 0 then -(a.den : Int) else a.den), a.num.natAbs, Int.natAbs_pos.mpr h⟩

def div (a b : Frac) : Frac := a.mul b.inv

/-- Strict order test by cross multiplication (denominators are positive). -/
def blt (a b : Frac) : Bool := a.num * b.den < b.num * a.den

/-- Sum of a list of fractions. -/
def lsum (l : List Frac) : Frac := l.foldr add (ofInt 0)

def toRat (a : Frac) : ℚ := (a.num : ℚ) / (a.den : ℚ)

theorem den_cast_pos (a : Frac) : (0 : ℚ) < (a.den : ℚ) := by
  exact_mod_cast a.dpos

theorem den_cast_ne (a : Frac) : ((a.den : ℚ)) ≠ 0 :=
  ne_of_gt a.den_cast_pos

@[simp] theorem toRat_ofInt (n : Int) : (ofInt n).toRat = (n : ℚ) := by
  simp [ofInt, toRat]

@[simp] theorem toRat_ofNat (n : Nat) :
    (OfNat.ofNat n : Frac).toRat = (n : ℚ) := by
  show (ofInt n).toRat = _
  simp

@[simp] theorem toRat_add (a b : Frac) : (a.add b).toRat = a.toRat + b.toRat := by
  have ha := a.den_cast_ne; have hb := b.den_cast_ne
  simp only [toRat, add]
  push_cast
  field_simp

@[simp] theorem toRat_neg (a : Frac) : a.neg.toRat = -a.toRat := by
  simp [toRat, neg, neg_div]

@[simp] theorem toRat_sub (a b : Frac) : (a.sub b).toRat = a.toRat - b.toRat := by
  simp [sub, sub_eq_add_neg]

@[simp] theorem toRat_mul (a b : Frac) : (a.mul b).toRat = a.toRat * b.toRat := by
  have ha := a.den_cast_ne; have hb := b.den_cast_ne
  simp only [toRat, mul]
  push_cast
  field_simp

@[simp] theorem toRat_inv (a : Frac) : a.inv.toRat = a.toRat⁻¹ := by
  have ha := a.den_cast_ne
  rcases lt_trichotomy a.num 0 with hneg | hz | hpos
  · have h : a.num ≠ 0 := ne_of_lt hneg
    have hrw : a.inv = ⟨-(a.den : Int), a.num.natAbs, Int.natAbs_pos.mpr h⟩ := by
      rw [inv, dif_neg h, if_pos hneg]
    have hnegQ : (a.num : ℚ) < 0 := by exact_mod_cast hneg
    simp only [hrw, toRat, inv_div]
    push_cast
    rw [Int.cast_natAbs, Int.cast_abs, abs_of_neg hnegQ]
    exact neg_div_neg_eq _ _
  · simp [inv, hz, toRat, ofInt]
  · have h : a.num ≠ 0 := ne_of_gt hpos
    have hnlt : ¬ a.num < 0 := by omega
    have hrw : a.inv = ⟨(a.den : Int), a.num.natAbs, Int.natAbs_pos.mpr h⟩ := by
      rw [inv, dif_neg h, if_neg hnlt]
    have hposQ : (0 : ℚ) < (a.num : ℚ) := by exact_mod_cast hpos
    simp only [hrw, toRat, inv_div]
    push_cast
    rw [Int.cast_natAbs, Int.cast_abs, abs_of_pos hposQ]

@[simp] theorem toRat_div (a b : Frac) : (a.div b).toRat = a.toRat / b.toRat := by
  simp [div, div_eq_mul_inv]

theorem blt_iff (a b : Frac) : a.blt b = true ↔ a.toRat < b.toRat := by
  have ha := a.den_cast_pos; have hb := b.den_cast_pos
  simp only [blt, decide_eq_true_eq, toRat]
  rw [div_lt_div_iff₀ ha hb]
  constructor
  · intro h; exact_mod_cast h
  · intro h; exact_mod_cast h

theorem num_pos_iff (a : Frac) : 0 < a.num ↔ 0 < a.toRat := by
  have ha := a.den_cast_pos
  rw [toRat, lt_div_iff₀ ha, zero_mul]
  constructor
  · intro h; exact_mod_cast h
  · intro h; exact_mod_cast h

theorem num_eq_zero_iff (a : Frac) : a.num = 0 ↔ a.toRat = 0 := by
  have ha := a.den_cast_ne
  simp only [toRat, div_eq_zero_iff, ha, or_false]
  constructor
  · intro h; exact_mod_cast h
  · intro h; exact_mod_cast h

end Frac

/-- Fuel-driven bisection for the integer square root; the kernel reduces it
(unlike `Nat.sqrt`, which is defined by well-founded recursion).
Invariant: `lo * lo ≤ n` and `n < hi * hi`. -/
def isqrtAux (n : Nat) : Nat → Nat → Nat → Nat
  | lo, _, 0 => lo
  | lo, hi, fuel + 1 =>
    if hi ≤ lo + 1 then lo
    else
      let m := (lo + hi) / 2
      if m * m ≤ n then isqrtAux n m hi fuel else isqrtAux n lo m fuel

/-- Integer square root (floor), computable in the kernel. -/
def isqrt (n : Nat) : Nat := isqrtAux n 0 (n + 1) (n + 1)

theorem isqrtAux_spec (n : Nat) :
    ∀ fuel lo hi, lo * lo ≤ n → n < hi * hi → lo + fuel ≥ hi →
      (isqrtAux n lo hi fuel) * (isqrtAux n lo hi fuel) ≤ n ∧
        n < (isqrtAux n lo hi fuel + 1) * (isqrtAux n lo hi fuel + 1) := by
  intro fuel
  induction fuel with
  | zero =>
    intro lo hi hlo hhi hfuel
    simp only [isqrtAux]
    refine ⟨hlo, ?_⟩
    have hle : hi * hi ≤ (lo + 1) * (lo + 1) := Nat.mul_le_mul (by omega) (by omega)
    omega
  | succ fuel ih =>
    intro lo hi hlo hhi hfuel
    simp only [isqrtAux]
    by_cases hcl : hi ≤ lo + 1
    · simp only [if_pos hcl]
      refine ⟨hlo, ?_⟩
      have hle : hi * hi ≤ (lo + 1) * (lo + 1) := Nat.mul_le_mul (by omega) (by omega)
      omega
    · simp only [if_neg hcl]
      by_cases hm : ((lo + hi) / 2) * ((lo + hi) / 2) ≤ n
      · simp only [if_pos hm]
        exact ih ((lo + hi) / 2) hi hm hhi (by omega)
      · simp only [if_neg hm]
        exact ih lo ((lo + hi) / 2) hlo (by omega) (by omega)

theorem isqrt_spec (n : Nat) : isqrt n * isqrt n ≤ n ∧ n < (isqrt n + 1) * (isqrt n + 1) := by
  have h := isqrtAux_spec n (n + 1) 0 (n + 1) (by omega) (by nlinarith) (by omega)
  exact h

/-- Round half to even of a nonnegative fraction (the rounding used when
Python formats an exactly representable value with `"%.2f"`-style format
specifiers).  Junk on negative input; callers pass absolute values. -/
def rheQ (x : Frac) : Nat :=
  let p := x.num.toNat
  let d := x.den
  let f := p / d
  let r := p % d
  if d < 2 * r then f + 1
  else if 2 * r < d then f
  else if f % 2 = 0 then f else f + 1

/-- Round half to even of the square root of a nonnegative fraction.
Used to format `std = sqrt(variance)` and `r = cov / sqrt(sxx*syy)` values
to a fixed number of decimals without leaving exact arithmetic. -/
def rheSqrt (x : Frac) : Nat :=
  let p := x.num.toNat
  let d := x.den
  let k := isqrt (p * d) / d
  if (2 * k + 1) * (2 * k + 1) * d < 4 * p then k + 1
  else if 4 * p < (2 * k + 1) * (2 * k + 1) * d then k
  else if k % 2 = 0 then k else k + 1

def pad2 (r : Nat) : String := (if r < 10 then "0" else "") ++ toString r

/-- Render a number of hundredths as a two-decimal string (Python `:.2f`). -/
def fmtHund (neg : Bool) (h : Nat) : String :=
  (if neg then "-" else "") ++ toString (h / 100) ++ "." ++ pad2 (h % 100)

/-- Render a number of tenths as a one-decimal string (Python `:.1f`). -/
def fmtTen (neg : Bool) (h : Nat) : String :=
  (if neg then "-" else "") ++ toString (h / 10) ++ "." ++ toString (h % 10)

def Frac.absF (x : Frac) : Frac := ⟨(x.num.natAbs : Int), x.den, x.dpos⟩

/-- Python `f"{x:.2f}"` on an exact rational value. -/
def fmt2F (x : Frac) : String :=
  fmtHund (decide (x.num < 0)) (rheQ ((Frac.ofInt 100).mul x.absF))

/-- Python `f"{x:.1f}"` on an exact rational value. -/
def fmt1F (x : Frac) : String :=
  fmtTen (decide (x.num < 0)) (rheQ ((Frac.ofInt 10).mul x.absF))

/-- Python `f"{std:.2f}"` where `std = sqrt v`; `none` is a float NaN and
formats as `"nan"`. -/
def stdStr : Option Frac → String
  | none => "nan"
  | some v => fmtHund false (rheSqrt ((Frac.ofInt 10000).mul v))

/-- Digit grouping of `f"{n:,}"`: commas every three digits (input is the
reversed digit list). -/
def commaChunk : List Char → List Char
  | [] => []
  | [a] => [a]
  | [a, b] => [a, b]
  | a :: b :: c :: rest =>
    match rest with
    | [] => [a, b, c]
    | _ => a :: b :: c :: ',' :: commaChunk rest

/-- Python `f"{n:,}"` for a natural number. -/
def commaFmt (n : Nat) : String :=
  ⟨(commaChunk (toString n).data.reverse).reverse⟩

/-- Python `s.replace("**", "")`: left-to-right, non-overlapping. -/
def stripStarStar : List Char → List Char
  | [] => []
  | '*' :: '*' :: rest => stripStarStar rest
  | c :: rest => c :: stripStarStar rest

/-- Kernel-reducible `String.take` (the core one walks an iterator defined
by well-founded recursion). -/
def strTake (s : String) (k : Nat) : String := ⟨s.data.take k⟩

/-! ## The data model

A `Cell` is one non-null value of a data frame: a number, a piece of text,
or a timestamp.  Numeric payloads are exact rationals; a faithful loader
produces them in lowest terms, and cell equality is representation
equality. -/

inductive Cell where
  | num (v : Frac)
  | str (s : String)
  | date (d : Int)
deriving DecidableEq

/-- One named column; `none` entries are null/NaN cells. -/
structure Col where
  name : String
  values : List (Option Cell)
deriving DecidableEq

/-- A data frame: ordered columns (rows live inside the columns). -/
abbrev Table := List Col

def Col.nonNull (c : Col) : List Cell := c.values.filterMap id

def Cell.isNum : Cell → Bool
  | .num _ => true
  | _ => false

def Cell.isDate : Cell → Bool
  | .date _ => true
  | _ => false

inductive Dtype where
  | numeric | categorical | temporal
deriving DecidableEq

/-- Modelled from the spec: column dtype inference is performed by the
pandas loader (`pd.read_csv` / `pd.read_excel`), which is not part of the
repository source.  Per spec §4.1 a column whose (non-null) values are all
numbers is numeric and one whose values are all dates is temporal,
everything else is categorical/text; per the spec's documented policy
(§9, open question) an all-null column is categorical. -/
def Col.dtype (c : Col) : Dtype :=
  if c.nonNull ≠ [] ∧ c.nonNull.all Cell.isNum then Dtype.numeric
  else if c.nonNull ≠ [] ∧ c.nonNull.all Cell.isDate then Dtype.temporal
  else Dtype.categorical

/-- Row count of the frame (`len(df)`); columns of a data frame all share
this length. -/
def Table.nrows (t : Table) : Nat := ((t.head?.map (fun c => c.values.length))).getD 0

/-- Data-frame well-formedness: rectangular, with unique column names
(the spec's Table invariant). -/
def Table.Wf (t : Table) : Prop :=
  (∀ c ∈ t, c.values.length = t.nrows) ∧ (t.map Col.name).Nodup

instance (t : Table) : Decidable t.Wf := by
  unfold Table.Wf
  infer_instance

def Table.rowAt (t : Table) (i : Nat) : List (Option Cell) :=
  t.map (fun c => c.values.getD i none)

def Table.rowsList (t : Table) : List (List (Option Cell)) :=
  (List.range t.nrows).map t.rowAt

/-- Count of rows equal to some earlier row (`df.duplicated().sum()`,
`keep='first'`; pandas compares NaN cells as equal here, as does
`Option.none = Option.none`). -/
def dupCountAux (seen : List (List (Option Cell))) : List (List (Option Cell)) → Nat
  | [] => 0
  | r :: rs => (if r ∈ seen then 1 else 0) + dupCountAux (r :: seen) rs

def Table.duplicates (t : Table) : Nat := dupCountAux [] t.rowsList

def Cell.asNum : Cell → Option Frac
  | .num v => some v
  | _ => none

def Col.nums (c : Col) : List Frac := c.nonNull.filterMap Cell.asNum

def Col.missingCount (c : Col) : Nat := c.values.countP (fun v => v.isNone)

/-- Descriptive statistics of `df.describe()` read by the rest of the
program: non-null count, mean, and sample variance (`std = sqrt svar`,
`none` = NaN when fewer than two observations; `ddof = 1`).  The min/max
and quartile entries of `describe()` are read by no modelled consumer and
are not carried. -/
structure NumStats where
  count : Nat
  mean : Frac
  svar : Option Frac
deriving DecidableEq

/-- Statistics of one numeric column (callers pass its non-null values,
which are nonempty for a numeric-dtype column). -/
def NumStats.ofList (xs : List Frac) : NumStats :=
  let n := xs.length
  let m := (Frac.lsum xs).div (Frac.ofInt n)
  let sv :=
    if 2 ≤ n then
      some ((Frac.lsum (xs.map (fun x => (x.sub m).mul (x.sub m)))).div (Frac.ofInt (n - 1)))
    else none
  ⟨n, m, sv⟩

structure CatStats where
  unique_count : Nat
  top_categories : List (Cell × Nat)
deriving DecidableEq

/-- Distinct values in order of first appearance (`seen` accumulates the
values already emitted). -/
def firstUniquesAux (seen : List Cell) : List Cell → List Cell
  | [] => []
  | x :: xs => if x ∈ seen then firstUniquesAux seen xs else x :: firstUniquesAux (x :: seen) xs

def firstUniques (l : List Cell) : List Cell := firstUniquesAux [] l

/-- Insert before the first entry whose count is not larger: a stable
descending insertion step. -/
def insertDesc (x : Cell × Nat) : List (Cell × Nat) → List (Cell × Nat)
  | [] => [x]
  | y :: ys => if x.2 < y.2 then y :: insertDesc x ys else x :: y :: ys

/-- Stable sort by descending count. -/
def sortDescByCount (l : List (Cell × Nat)) : List (Cell × Nat) := l.foldr insertDesc []

/-- Modelled from the spec: `Series.value_counts()` sorts by descending
count inside pandas; its tie order is internal to the library (numpy sort)
and is not part of the repository source.  Per spec §3/§4 step 4, ties are
broken by order of first appearance in the column, which the stable sort
over the first-appearance unique list realizes.  NaN cells are dropped
(`dropna=True`), hence the input is the non-null cell list. -/
def value_counts (l : List Cell) : List (Cell × Nat) :=
  sortDescByCount ((firstUniques l).map (fun v => (v, l.count v)))

/-- Per-column categorical statistics: `nunique()` (distinct non-null
values) and `value_counts().head(5)`. -/
def CatStats.ofList (xs : List Cell) : CatStats :=
  ⟨(firstUniques xs).length, (value_counts xs).take 5⟩

/-- One entry of `df[numeric_cols].corr()`: the Pearson correlation
`r = cov / sqrt(den2)` kept in exact form as the centered cross sum `cov`
and the product `den2 = sxx * syy`.  `den2 = 0` (zero variance or fewer
than two paired observations) is float NaN. -/
structure Corr where
  cov : Frac
  den2 : Frac
deriving DecidableEq

/-- Pairwise-complete observations of two columns (pandas `corr` drops a
row for a pair when either entry is null). -/
def pairedNums (v1 v2 : List (Option Cell)) : List (Frac × Frac) :=
  (v1.zip v2).filterMap (fun p =>
    match p with
    | (some (Cell.num x), some (Cell.num y)) => some (x, y)
    | _ => none)

def pairCorr (c1 c2 : Col) : Corr :=
  let ps := pairedNums c1.values c2.values
  let n := ps.length
  if n = 0 then ⟨Frac.ofInt 0, Frac.ofInt 0⟩
  else
    let mx := (Frac.lsum (ps.map Prod.fst)).div (Frac.ofInt n)
    let my := (Frac.lsum (ps.map Prod.snd)).div (Frac.ofInt n)
    let cov := Frac.lsum (ps.map (fun p => (p.1.sub mx).mul (p.2.sub my)))
    let sxx := Frac.lsum (ps.map (fun p => (p.1.sub mx).mul (p.1.sub mx)))
    let syy := Frac.lsum (ps.map (fun p => (p.2.sub my).mul (p.2.sub my)))
    ⟨cov, sxx.mul syy⟩

/-- The source's test `abs(corr_matrix.iloc[i, j]) > 0.7`: for `den2 > 0`
this is `100 * cov^2 > 49 * den2`; a NaN entry (`den2 = 0`) fails the
comparison, as NaN comparisons do in Python. -/
def highCorrB (c : Corr) : Bool :=
  (decide (0 < c.den2.num)) && ((Frac.ofInt 49).mul c.den2).blt ((Frac.ofInt 100).mul (c.cov.mul c.cov))

/-- Python `f"{corr_matrix.iloc[i, j]:.2f}"`:
`|r| * 100 = sqrt(10000 * cov^2 / den2)` rounded half-even, with the sign
of `cov`. -/
def corrValStr (c : Corr) : String :=
  fmtHund (decide (c.cov.num < 0)) (rheSqrt ((Frac.ofInt 10000).mul ((c.cov.mul c.cov).div c.den2)))

/-- The results dictionary built by
`DataAnalyzer.perform_comprehensive_analysis`.  Mappings keyed by column
name are ordered association lists (Python dicts preserve insertion
order); `missing_percentage` entries are `none` when the percentage is
float NaN (division by a zero row count); `correlation_matrix` carries the
column labels of the correlation data frame together with its entries. -/
structure AnalysisResult where
  shape : Nat × Nat
  columns : List String
  data_types : List (String × Dtype)
  missing_values : List (String × Nat)
  missing_percentage : List (String × Option Frac)
  duplicates : Nat
  numeric_columns : List String
  numeric_stats : List (String × NumStats)
  categorical_columns : List String
  categorical_stats : List (String × CatStats)
  correlation_matrix : Option (List String × List (List Corr))
deriving DecidableEq

/-- `DataAnalyzer.perform_comprehensive_analysis` on a loaded frame.
Temporal columns belong to neither `select_dtypes(include=[np.number])`
nor `select_dtypes(include=['object', 'category'])`. -/
def perform_comprehensive_analysis (t : Table) : AnalysisResult :=
  let nr := t.nrows
  let numericCols := t.filter (fun c => c.dtype = Dtype.numeric)
  let catCols := t.filter (fun c => c.dtype = Dtype.categorical)
  { shape := (nr, t.length)
    columns := t.map Col.name
    data_types := t.map (fun c => (c.name, c.dtype))
    missing_values := t.map (fun c => (c.name, c.missingCount))
    missing_percentage := t.map (fun c => (c.name,
      if nr = 0 then none
      else some (((Frac.ofInt c.missingCount).div (Frac.ofInt nr)).mul (Frac.ofInt 100))))
    duplicates := t.duplicates
    numeric_columns := numericCols.map Col.name
    numeric_stats := numericCols.map (fun c => (c.name, NumStats.ofList c.nums))
    categorical_columns := catCols.map Col.name
    categorical_stats := catCols.map (fun c => (c.name, CatStats.ofList c.nonNull))
    correlation_matrix :=
      if 1 < numericCols.length then
        some (numericCols.map Col.name,
          numericCols.map (fun c1 => numericCols.map (fun c2 => pairCorr c1 c2)))
      else none }

/-- The mutable state of a `DataAnalyzer` object (`__init__` sets
`self.df = None` and `self.analysis_results = {}`; the latter is never
written again). -/
structure DataAnalyzer where
  df : Option Table
  analysis_results : Option AnalysisResult
deriving DecidableEq

/-- The `perform_comprehensive_analysis` method as a state transformer:
it returns `{}` (here `none`) when no frame is loaded, and touches no
state. -/
def DataAnalyzer.perform (a : DataAnalyzer) : Option AnalysisResult × DataAnalyzer :=
  match a.df with
  | none => (none, a)
  | some t => (some (perform_comprehensive_analysis t), a)

/-! ## Insights (`DataAnalyzer.generate_ai_insights`) -/

/-- The six insight shapes, in order of the appending steps of
`generate_ai_insights`. -/
inductive InsightCat where
  | overview | quality | numeric | categorical | correlation | duplicates
deriving DecidableEq

/-- One generated insight, tagged with the step that appended it (the tag
is also readable off the label embedded in the text). -/
structure Insight where
  cat : InsightCat
  text : String
deriving DecidableEq

def totalMissing (r : AnalysisResult) : Nat := (r.missing_values.map Prod.snd).sum

def overviewText (r : AnalysisResult) : String :=
  "📚 <b>Data Overview</b>: The dataset contains " ++ commaFmt r.shape.1
    ++ " rows and " ++ toString r.shape.2 ++ " columns."

def missingIns (r : AnalysisResult) : Option Insight :=
  if 0 < totalMissing r then
    some ⟨InsightCat.quality, "🕵🏼‍♂️ <b>Data Quality</b>: " ++ commaFmt (totalMissing r)
      ++ " missing values detected across the dataset."⟩
  else none

/-- Text of the numeric-analysis insight: the base sentence, extended with
mean/std of the first numeric column when its `describe()` entry is
present (it always is for an analysis-produced result; a missing entry
leaves the base text, like the source's `'mean' in stats` test). -/
def numericInsText (r : AnalysisResult) : String :=
  let base := "🔢 <b>Numeric Analysis</b>: " ++ toString r.numeric_columns.length
    ++ " numeric columns found."
  match r.numeric_columns.head? with
  | none => base
  | some col =>
    match r.numeric_stats.lookup col with
    | some st => base ++ " " ++ col ++ " has mean " ++ fmt2F st.mean
        ++ " and std " ++ stdStr st.svar ++ "."
    | none => base

def numericIns (r : AnalysisResult) : Option Insight :=
  if r.numeric_columns ≠ [] then some ⟨InsightCat.numeric, numericInsText r⟩ else none

def categoricalIns (r : AnalysisResult) : Option Insight :=
  if r.categorical_columns ≠ [] then
    some ⟨InsightCat.categorical, "🗂️ <b>Categorical Analysis<b/>: "
      ++ toString r.categorical_columns.length ++ " categorical columns identified."⟩
  else none

/-- The strings collected into `high_corr_pairs`: `i` ascending, then `j`
in `range(i+1, n)`, keeping pairs passing the `> 0.7` test. -/
def corrPairStrings (names : List String) (m : List (List Corr)) : List String :=
  (List.range names.length).flatMap (fun i =>
    (List.range' (i + 1) (names.length - (i + 1))).filterMap (fun j =>
      let c := (m.getD i []).getD j ⟨Frac.ofInt 0, Frac.ofInt 0⟩
      if highCorrB c then
        some (names.getD i "" ++ " & " ++ names.getD j "" ++ " (" ++ corrValStr c ++ ")")
      else none))

def corrHeader : String := "👨‍👩‍👧‍👦 <b>Strong Correlations</b>: Found between "

def corrIns (r : AnalysisResult) : Option Insight :=
  match r.correlation_matrix with
  | none => none
  | some nm =>
    let ps := corrPairStrings nm.1 nm.2
    if ps ≠ [] then
      some ⟨InsightCat.correlation, corrHeader ++ String.intercalate ", " (ps.take 3)⟩
    else none

def dupIns (r : AnalysisResult) : Option Insight :=
  if 0 < r.duplicates then
    some ⟨InsightCat.duplicates, "🔍 <b>Data Quality</b>: " ++ toString r.duplicates
      ++ " duplicate rows found."⟩
  else none

/-- `DataAnalyzer.generate_ai_insights`: an empty results dictionary
(`none`, produced when no frame is loaded) yields `[]`; otherwise the six
appending steps run in their fixed order. -/
def generate_ai_insights (res : Option AnalysisResult) : List Insight :=
  match res with
  | none => []
  | some r =>
    [⟨InsightCat.overview, overviewText r⟩] ++ (missingIns r).toList ++ (numericIns r).toList
      ++ (categoricalIns r).toList ++ (corrIns r).toList ++ (dupIns r).toList

/-! ## Sanitization (`ReportGenerator.clean_text`) -/

def isEmojiRange (c : Char) : Bool :=
  (0x2600 ≤ c.toNat ∧ c.toNat ≤ 0x26FF) ∨ (0x2700 ≤ c.toNat ∧ c.toNat ≤ 0x27BF)

def isAsciiChar (c : Char) : Bool := c.toNat ≤ 0x7F

def bulletSub (c : Char) : List Char := if c = '•' then ['-', ' '] else [c]

def dashSub (c : Char) : Char := if c = '–' ∨ c = '—' then '-' else c

/-- `ReportGenerator.clean_text` on a string argument: replace `•` by
`"- "` and en/em dashes by `"-"`, drop the two miscellaneous-symbol emoji
blocks (`re.sub(r'[☀-⛿✀-➿]', '', s)`), then drop every
remaining non-ASCII character (`re.sub(r'[^\x00-\x7F]+', '', s)`).
The single-character `str.replace` calls act per character. -/
def clean_text (s : String) : String :=
  ⟨(((s.data.flatMap bulletSub).map dashSub).filter (fun c => !(isEmojiRange c))).filter isAsciiChar⟩

/-! ## Report construction (`ReportGenerator.generate_pdf_report`)

The document is modelled as its text content: one list of strings per
explicit `pdf.add_page()` section, each string one `pdf.cell` /
`pdf.multi_cell` call in source order.  `write_line` / `write_multiline`
sanitize through `clean_text`; the direct `pdf.cell` calls (title, date
line, footer) do not.  Layout (fonts, margins, automatic page breaks)
carries no claim-relevant content and is not modelled. -/

def getShape (res : Option AnalysisResult) : Nat × Nat := ((res.map (fun r => r.shape))).getD (0, 0)

def getMissingTotal (res : Option AnalysisResult) : Nat := ((res.map totalMissing)).getD 0

def getDuplicates (res : Option AnalysisResult) : Nat := ((res.map (fun r => r.duplicates))).getD 0

def getNumericCount (res : Option AnalysisResult) : Nat :=
  ((res.map (fun r => r.numeric_columns.length))).getD 0

def getCatCount (res : Option AnalysisResult) : Nat :=
  ((res.map (fun r => r.categorical_columns.length))).getD 0

def getColumns (res : Option AnalysisResult) : List String := ((res.map (fun r => r.columns))).getD []

def getDataTypes (res : Option AnalysisResult) : List (String × Dtype) :=
  ((res.map (fun r => r.data_types))).getD []

def getNumericCols (res : Option AnalysisResult) : List String :=
  ((res.map (fun r => r.numeric_columns))).getD []

def getNumStats (res : Option AnalysisResult) : List (String × NumStats) :=
  ((res.map (fun r => r.numeric_stats))).getD []

def getCatCols (res : Option AnalysisResult) : List String :=
  ((res.map (fun r => r.categorical_columns))).getD []

def getCatStats (res : Option AnalysisResult) : List (String × CatStats) :=
  ((res.map (fun r => r.categorical_stats))).getD []

/-- Rendering of the numpy dtype name (`str(data_types.get(col))`).  The
`Cell` model does not distinguish integer from float widths; the numeric
name stands for the family. -/
def dtypeName : Dtype → String
  | Dtype.numeric => "float64"
  | Dtype.categorical => "object"
  | Dtype.temporal => "datetime64[ns]"

/-- Python `str(value)` of a category value as printed in the report
(claims inspect none of these lines; the rendering of non-string payloads
abbreviates Python float formatting). -/
def cellStr : Cell → String
  | Cell.str s => s
  | Cell.num v => toString v.num ++ (if v.den = 1 then "" else "/" ++ toString v.den)
  | Cell.date d => toString d

def execLines (texts : List String) : List String :=
  if texts = [] then [clean_text "No insights generated from the data analysis."]
  else ((texts.take 6).enumFrom 1).map (fun p =>
    clean_text (toString p.1 ++ ". " ++ clean_text ⟨stripStarStar p.2.data⟩))

def page1 (texts : List String) (now : String) : List String :=
  ["AI-POWERED DATA ANALYSIS REPORT", "Generated on: " ++ now, clean_text "EXECUTIVE SUMMARY"]
    ++ execLines texts

def overview_data (res : Option AnalysisResult) : List String :=
  ["Total Rows: " ++ commaFmt (getShape res).1,
   "Total Columns: " ++ toString (getShape res).2,
   "Missing Values: " ++ commaFmt (getMissingTotal res),
   "Duplicate Rows: " ++ toString (getDuplicates res),
   "Numeric Columns: " ++ toString (getNumericCount res),
   "Categorical Columns: " ++ toString (getCatCount res)]

def dataTypeLines (res : Option AnalysisResult) : List String :=
  ((getColumns res).take 10).map (fun col =>
    let dt := match (getDataTypes res).lookup col with
      | some d => dtypeName d
      | none => "Unknown"
    let colDisp := if 30 < col.length then strTake col 30 ++ "..." else col
    clean_text ("• " ++ colDisp ++ ": " ++ dt))

def page2 (res : Option AnalysisResult) : List String :=
  [clean_text "DATASET OVERVIEW"]
    ++ (overview_data res).map (fun it => clean_text ("• " ++ it))
    ++ [clean_text "DATA TYPES SUMMARY"] ++ dataTypeLines res

def numericLines (res : Option AnalysisResult) : List String :=
  let cols := (getNumericCols res).take 6
  if cols = [] then [clean_text "No numeric columns found in the dataset."]
  else cols.map (fun col =>
    let line := match (getNumStats res).lookup col with
      | some st => "• " ++ col ++ ": count=" ++ toString st.count ++ ".0, mean="
          ++ fmt2F st.mean ++ ", std=" ++ stdStr st.svar
      | none => "• " ++ col ++ ": No statistics"
    clean_text (if 80 < line.length then strTake line 77 ++ "..." else line))

def catLines (res : Option AnalysisResult) : List String :=
  let cols := (getCatCols res).take 4
  if cols = [] then [clean_text "No categorical columns found in the dataset."]
  else cols.flatMap (fun col =>
    match (getCatStats res).lookup col with
    | some st =>
      [clean_text ("• " ++ col ++ ": " ++ toString st.unique_count ++ " unique values")]
        ++ (st.top_categories.take 2).map (fun p =>
            clean_text ("  - " ++ cellStr p.1 ++ ": " ++ toString p.2 ++ " occurrences"))
    | none => [clean_text ("• " ++ col ++ ": N/A unique values")])

def page3 (res : Option AnalysisResult) : List String :=
  [clean_text "NUMERIC ANALYSIS"] ++ numericLines res
    ++ [clean_text "CATEGORICAL ANALYSIS"] ++ catLines res

def recommendations : List String :=
  ["Review columns with high missing values and consider imputation strategies",
   "Remove or investigate duplicate records to ensure data quality",
   "Analyze strong correlations for feature engineering opportunities",
   "Validate data distributions and handle outliers appropriately",
   "Consider collecting more data if the dataset is small (<1000 records)",
   "Explore categorical variables for potential grouping or encoding strategies",
   "Perform additional statistical tests based on the data characteristics",
   "Consider time-series analysis if temporal patterns are present"]

/-- `completeness_score = 100 * (1 - missing_total / (rows * cols))` when
`rows * cols > 0`, else `0`. -/
def completeness_score (res : Option AnalysisResult) : Frac :=
  if 0 < (getShape res).1 * (getShape res).2 then
    (Frac.ofInt 100).mul ((Frac.ofInt 1).sub
      ((Frac.ofInt (getMissingTotal res)).div (Frac.ofInt ((getShape res).1 * (getShape res).2))))
  else Frac.ofInt 0

/-- `(duplicates / shape[0] * 100) if shape[0] > 0 else 0`. -/
def duplicate_rate (res : Option AnalysisResult) : Frac :=
  if 0 < (getShape res).1 then
    ((Frac.ofInt (getDuplicates res)).div (Frac.ofInt (getShape res).1)).mul (Frac.ofInt 100)
  else Frac.ofInt 0

def volumeLabel (rows : Nat) : String :=
  if 10000 < rows then "Large" else if 1000 < rows then "Medium" else "Small"

def goodMixLine : String := "Variable Diversity: Good mix of numeric and categorical variables"

def quality_metrics (res : Option AnalysisResult) : List String :=
  ["Completeness Score: " ++ fmt1F (completeness_score res) ++ "%",
   "Duplicate Rate: " ++ fmt1F (duplicate_rate res) ++ "%",
   "Data Volume: " ++ volumeLabel (getShape res).1 ++ " dataset",
   if 0 < getNumericCount res ∧ 0 < getCatCount res then goodMixLine
   else "Limited variable diversity"]

def page4 (res : Option AnalysisResult) : List String :=
  [clean_text "RECOMMENDATIONS & CONCLUSIONS"]
    ++ (recommendations.enumFrom 1).map (fun p => clean_text (toString p.1 ++ ". " ++ p.2))
    ++ [clean_text "DATA QUALITY ASSESSMENT"]
    ++ (quality_metrics res).map (fun m => clean_text ("• " ++ m))

def conclusionText (res : Option AnalysisResult) : String :=
  "\nThis comprehensive analysis of the dataset containing " ++ commaFmt (getShape res).1
    ++ " records and " ++ toString (getShape res).2 ++ " variables \nprovides valuable insights"
    ++ " for data-driven decision making. The analysis highlights key patterns, \ndata quality"
    ++ " considerations, and opportunities for further exploration.\n\nThe dataset demonstrates "
    ++ fmt1F (completeness_score res) ++ "% completeness with " ++ toString (getNumericCount res)
    ++ " numeric \nand " ++ toString (getCatCount res) ++ " categorical variables available for"
    ++ " analysis. The recommendations \nprovided offer actionable steps for data improvement"
    ++ " and advanced analytical modeling.\n\nFor further analysis, consider implementing"
    ++ " machine learning models, time-series forecasting, \nor advanced statistical techniques"
    ++ " based on the specific business objectives.\n            "

def page5 (res : Option AnalysisResult) : List String :=
  [clean_text "CONCLUSION", clean_text (conclusionText res),
   "Generated by AI Data Storyteller - Automated Data Analysis Tool"]

/-- The full document content (`now` is the wall-clock string interpolated
into the date line). -/
def generate_pdf_doc (res : Option AnalysisResult) (texts : List String) (now : String) :
    List (List String) :=
  [page1 texts now, page2 res, page3 res, page4 res, page5 res]

/-! ## Output-file effect of `generate_pdf_report`

`pdf.output(output_path)` is the single write effect.  A file system is an
association list from paths to contents; a `WriteFault` injects an I/O
failure after a prefix of the content has reached the disk, after which
the exception propagates to the `except` handler, which prints and
returns `None` — the handler performs no file cleanup. -/

abbrev FS := List (String × String)

structure WriteFault where
  failAfter : Option Nat
deriving DecidableEq

def serializeDoc (doc : List (List String)) : String :=
  String.intercalate "\n" (doc.map (fun p => String.intercalate "\n" p))

def writeOut (flt : WriteFault) (fs : FS) (path content : String) : FS × Bool :=
  match flt.failAfter with
  | none => ((path, content) :: fs, true)
  | some k => ((path, strTake content k) :: fs, false)

/-- `ReportGenerator.generate_pdf_report` with an explicit `output_file`:
build the document in memory, then write it out; on success return the
path, on a write failure catch, report and return `None`.  (The
`output_file=None` branch differs only in asking `tempfile` for the path.) -/
def generate_pdf_report (flt : WriteFault) (fs : FS) (res : Option AnalysisResult)
    (texts : List String) (now path : String) : Option String × FS :=
  let doc := generate_pdf_doc res texts now
  let out := writeOut flt fs path (serializeDoc doc)
  if out.2 then (some path, out.1) else (none, out.1)

/-! ## Shared concrete frames for witnesses and counterexamples -/

def numCell (n : Int) : Option Cell := some (Cell.num (Frac.ofInt n))

def strCell (s : String) : Option Cell := some (Cell.str s)

/-- The end-to-end scenario frame of spec §8: `Sales` numeric, `Region`
categorical, `Notes` fully null, and the fourth row repeating the first. -/
def demoTable : Table :=
  [⟨"Sales", [numCell 10, numCell 20, numCell 30, numCell 10]⟩,
   ⟨"Region", [strCell "A", strCell "B", strCell "A", strCell "A"]⟩,
   ⟨"Notes", [none, none, none, none]⟩]

/-! ## C3: analysis is pure and deterministic -/

theorem perform_state_eq (a : DataAnalyzer) :
    a.perform = (a.df.map perform_comprehensive_analysis, a) := by
  cases h : a.df <;> simp [DataAnalyzer.perform, h]

/-- C3: the analysis is a pure function of the loaded frame: the method
leaves the analyzer state untouched, two analyzers holding the same frame
produce equal results, and rerunning the analysis reproduces the same
`AnalysisResult` (the structures carry decidable equality, so this is
bit-level identity of the modelled dictionary). -/
theorem analysis_idempotent (a b : DataAnalyzer) (h : a.df = b.df) :
    a.perform.2 = a ∧ a.perform.1 = b.perform.1 ∧ a.perform.2.perform.1 = a.perform.1 := by
  simp [perform_state_eq, h]

/-- Witness for C3: two analyzer states over the demo frame, one of them
already holding cached results. -/
theorem analysis_idempotent_w :
    (DataAnalyzer.mk (some demoTable) none).perform.2 = DataAnalyzer.mk (some demoTable) none ∧
    (DataAnalyzer.mk (some demoTable) none).perform.1 =
      (DataAnalyzer.mk (some demoTable)
        (some (perform_comprehensive_analysis demoTable))).perform.1 ∧
    (DataAnalyzer.mk (some demoTable) none).perform.2.perform.1 =
      (DataAnalyzer.mk (some demoTable) none).perform.1 :=
  analysis_idempotent _ _ rfl

/-! ## C6: sanitization -/

/-- Specification-side sanitization (§4.3): apply the punctuation
substitutions (bullet to `"- "`, en/em dash to `"-"`), then strip every
character outside the basic text range.  The spec's "basic printable text
range" is read as the 7-bit range kept by the code (its own comment says
"remove any remaining non-ascii"); the spec itself calls characters
outside that range "non-printable" (§8). -/
def specSanitize (s : String) : String :=
  ⟨((s.data.flatMap bulletSub).map dashSub).filter isAsciiChar⟩

theorem ascii_and_emoji (c : Char) : (isAsciiChar c && !(isEmojiRange c)) = isAsciiChar c := by
  by_cases h : isAsciiChar c = true
  · have hr : c.toNat ≤ 0x7F := by simpa [isAsciiChar] using h
    have he : isEmojiRange c = false := by
      simp only [isEmojiRange, decide_eq_false_iff_not]
      omega
    simp [h, he]
  · have hf : isAsciiChar c = false := by simpa using h
    simp [hf]

/-- C6: `clean_text` replaces each bullet with `"- "` and each en/em dash
with `"-"`, and every character of its output lies in the basic (7-bit)
text range; it coincides with the spec-side substitute-then-strip
pipeline, and on a string holding a bullet and an emoji that the target
font cannot print it yields the pure-ASCII string with the bullet
replaced. -/
theorem clean_text_spec (s : String) :
    ((clean_text s).data.all isAsciiChar = true) ∧ clean_text s = specSanitize s ∧
      clean_text "• report 😀" = "-  report " := by
  refine ⟨?_, ?_, by decide⟩
  · show (((((s.data.flatMap bulletSub).map dashSub).filter
      (fun c => !(isEmojiRange c))).filter isAsciiChar).all isAsciiChar = true)
    rw [List.all_eq_true]
    intro c hc
    exact (List.mem_filter.mp hc).2
  · show String.mk _ = String.mk _
    congr 1
    rw [List.filter_filter]
    exact List.filter_congr (fun c _ => ascii_and_emoji c)

/-! ## C1: shape of the insight list -/

theorem missingIns_cat {r : AnalysisResult} {i : Insight} (h : missingIns r = some i) :
    i.cat = InsightCat.quality := by
  unfold missingIns at h
  split at h
  · cases h; rfl
  · cases h

theorem numericIns_cat {r : AnalysisResult} {i : Insight} (h : numericIns r = some i) :
    i.cat = InsightCat.numeric := by
  unfold numericIns at h
  split at h
  · cases h; rfl
  · cases h

theorem categoricalIns_cat {r : AnalysisResult} {i : Insight} (h : categoricalIns r = some i) :
    i.cat = InsightCat.categorical := by
  unfold categoricalIns at h
  split at h
  · cases h; rfl
  · cases h

theorem corrIns_cat {r : AnalysisResult} {i : Insight} (h : corrIns r = some i) :
    i.cat = InsightCat.correlation := by
  unfold corrIns at h
  split at h
  · cases h
  · dsimp only at h
    split at h
    · cases h; rfl
    · cases h

theorem dupIns_cat {r : AnalysisResult} {i : Insight} (h : dupIns r = some i) :
    i.cat = InsightCat.duplicates := by
  unfold dupIns at h
  split at h
  · cases h; rfl
  · cases h

theorem optSub {o : Option Insight} {c : InsightCat} (h : ∀ i, o = some i → i.cat = c) :
    (o.toList.map Insight.cat).Sublist [c] := by
  cases o with
  | none => simp
  | some i => simp [h i rfl]

theorem optLen (o : Option Insight) : o.toList.length ≤ 1 := by
  cases o <;> simp

/-- C1: on any analysis-produced result the insight list opens with the
overview insight, the insight categories follow the fixed order Overview,
Data Quality (missing), Numeric, Categorical, Correlation, Duplicates
with each step contributing zero or one insight (the category list is a
sublist of the canonical six), and the list holds between 1 and 6
entries. -/
theorem insights_order (r : AnalysisResult) :
    ((generate_ai_insights (some r)).map Insight.cat).Sublist
        [InsightCat.overview, InsightCat.quality, InsightCat.numeric, InsightCat.categorical,
          InsightCat.correlation, InsightCat.duplicates] ∧
      (generate_ai_insights (some r)).head? = some ⟨InsightCat.overview, overviewText r⟩ ∧
      1 ≤ (generate_ai_insights (some r)).length ∧
      (generate_ai_insights (some r)).length ≤ 6 := by
  refine ⟨?_, ?_, ?_, ?_⟩
  · simp only [generate_ai_insights, List.map_append]
    have htgt : [InsightCat.overview, InsightCat.quality, InsightCat.numeric,
        InsightCat.categorical, InsightCat.correlation, InsightCat.duplicates]
        = [InsightCat.overview] ++ [InsightCat.quality] ++ [InsightCat.numeric]
          ++ [InsightCat.categorical] ++ [InsightCat.correlation] ++ [InsightCat.duplicates] := rfl
    rw [htgt]
    exact ((((((List.Sublist.refl [InsightCat.overview]).append
      (optSub (fun i h => missingIns_cat h))).append
      (optSub (fun i h => numericIns_cat h))).append
      (optSub (fun i h => categoricalIns_cat h))).append
      (optSub (fun i h => corrIns_cat h))).append
      (optSub (fun i h => dupIns_cat h)))
  · simp [generate_ai_insights]
  · simp [generate_ai_insights]
  · have h1 := optLen (missingIns r)
    have h2 := optLen (numericIns r)
    have h3 := optLen (categoricalIns r)
    have h4 := optLen (corrIns r)
    have h5 := optLen (dupIns r)
    simp only [generate_ai_insights, List.length_append, List.length_singleton]
    omega

/-! ## C5: analysis of an empty frame -/

/-- C5 counterexample: on the frame with one column and zero rows the
per-column missing percentage is the float NaN marker (pandas evaluates
`0 / 0 * 100` to NaN on an empty frame), not the number 0 that the claim
requires. -/
theorem missing_pct_nan_on_empty :
    (perform_comprehensive_analysis [⟨"a", []⟩]).missing_percentage = [("a", none)] ∧
      (none : Option Frac) ≠ some (Frac.ofInt 0) := by
  exact ⟨by decide, by simp⟩

/-- C5 (amended): analyzing an empty frame (zero rows; a zero-column frame
has zero rows) raises nothing and zeroes every field — shape as given,
total missing 0, duplicate count 0, every per-column missing count 0 —
except that each per-column missing percentage is the NaN marker produced
by the `0 / len(df)` division, not 0. -/
theorem analysis_empty_zeroed (t : Table) (hw : t.Wf) (h0 : t.nrows = 0) :
    (perform_comprehensive_analysis t).shape = (0, t.length) ∧
      totalMissing (perform_comprehensive_analysis t) = 0 ∧
      (perform_comprehensive_analysis t).duplicates = 0 ∧
      (∀ p ∈ (perform_comprehensive_analysis t).missing_values, p.2 = 0) ∧
      (∀ p ∈ (perform_comprehensive_analysis t).missing_percentage, p.2 = none) := by
  have hcount : ∀ c ∈ t, c.missingCount = 0 := by
    intro c hc
    have hlen := hw.1 c hc
    have hle := List.countP_le_length (fun v => v.isNone) (l := c.values)
    unfold Col.missingCount
    omega
  refine ⟨?_, ?_, ?_, ?_, ?_⟩
  · simp [perform_comprehensive_analysis, h0]
  · unfold totalMissing
    apply List.sum_eq_zero
    intro x hx
    simp only [perform_comprehensive_analysis, List.map_map, List.mem_map] at hx
    obtain ⟨c, hc, hxc⟩ := hx
    rw [← hxc]
    exact hcount c hc
  · simp [perform_comprehensive_analysis, Table.duplicates, Table.rowsList, h0, dupCountAux]
  · intro p hp
    simp only [perform_comprehensive_analysis, List.mem_map] at hp
    obtain ⟨c, hc, hpc⟩ := hp
    rw [← hpc]
    exact hcount c hc
  · intro p hp
    simp only [perform_comprehensive_analysis, List.mem_map] at hp
    obtain ⟨c, hc, hpc⟩ := hp
    rw [← hpc]
    simp [h0]

/-- Witness for the amended C5 at a one-column, zero-row frame. -/
theorem analysis_empty_zeroed_w :
    (perform_comprehensive_analysis [⟨"a", []⟩]).shape = (0, ([⟨"a", []⟩] : Table).length) ∧
      totalMissing (perform_comprehensive_analysis [⟨"a", []⟩]) = 0 ∧
      (perform_comprehensive_analysis [⟨"a", []⟩]).duplicates = 0 ∧
      (∀ p ∈ (perform_comprehensive_analysis [⟨"a", []⟩]).missing_values, p.2 = 0) ∧
      (∀ p ∈ (perform_comprehensive_analysis [⟨"a", []⟩]).missing_percentage, p.2 = none) :=
  analysis_empty_zeroed [⟨"a", []⟩] (by decide) (by decide)

/-! ## C7: report on an empty result -/

/-- C7: rendering a report for an `AnalysisResult` with zero rows and zero
columns goes through (the builder is total: the divisions feeding the page
are guarded) and the Dataset Overview section holds a line containing
"Total Rows: 0". -/
theorem report_zero_rows (r : AnalysisResult) (texts : List String) (now : String)
    (h : r.shape = (0, 0)) :
    ∃ l ∈ (generate_pdf_doc (some r) texts now).getD 1 [],
      ∃ a b, l = a ++ "Total Rows: 0" ++ b := by
  have hs : getShape (some r) = (0, 0) := by simp [getShape, h]
  have hdoc : (generate_pdf_doc (some r) texts now).getD 1 [] = page2 (some r) := rfl
  refine ⟨"-  Total Rows: 0", ?_, "-  ", "", by decide⟩
  rw [hdoc]
  unfold page2
  refine List.mem_append.mpr (Or.inl ?_)
  refine List.mem_append.mpr (Or.inl ?_)
  refine List.mem_append.mpr (Or.inr ?_)
  refine List.mem_map.mpr ⟨"Total Rows: " ++ commaFmt (getShape (some r)).1, ?_, ?_⟩
  · unfold overview_data
    exact List.mem_cons_self _ _
  · rw [hs]
    decide

/-- Witness for C7 at the analysis of the empty frame. -/
theorem report_zero_rows_w :
    ∃ l ∈ (generate_pdf_doc (some (perform_comprehensive_analysis ([] : Table))) ["x"]
        "2026-10-12").getD 1 [], ∃ a b, l = a ++ "Total Rows: 0" ++ b :=
  report_zero_rows (perform_comprehensive_analysis ([] : Table)) ["x"] "2026-10-12" (by decide)

/-! ## C9: failure while writing the output -/

/-- C9 counterexample: with a write fault after 5 characters the render
returns the error result (`None`), yet the requested output path now holds
a strict prefix of the document — a partially written artifact the claim
forbids. -/
theorem report_partial_file_left :
    (generate_pdf_report ⟨some 5⟩ [] none [] "t" "out.pdf").1 = none ∧
      (generate_pdf_report ⟨some 5⟩ [] none [] "t" "out.pdf").2.lookup "out.pdf" =
        some (strTake (serializeDoc (generate_pdf_doc none [] "t")) 5) ∧
      strTake (serializeDoc (generate_pdf_doc none [] "t")) 5 ≠
        serializeDoc (generate_pdf_doc none [] "t") := by
  refine ⟨rfl, ?_, by decide⟩
  simp [generate_pdf_report, writeOut, List.lookup]

/-- C9 (amended): when the write fails partway the function reports the
error and returns no document, but the truncated prefix written so far
remains at the requested output path — the handler stages nothing through
a temporary location and deletes nothing. -/
theorem report_error_on_write_failure (flt : WriteFault) (fs : FS)
    (res : Option AnalysisResult) (texts : List String) (now path : String) (k : Nat)
    (h : flt.failAfter = some k) :
    (generate_pdf_report flt fs res texts now path).1 = none ∧
      (generate_pdf_report flt fs res texts now path).2.lookup path =
        some (strTake (serializeDoc (generate_pdf_doc res texts now)) k) := by
  unfold generate_pdf_report writeOut
  rw [h]
  simp [List.lookup]

/-- Witness for the amended C9 at a concrete faulty write. -/
theorem report_error_on_write_failure_w :
    (generate_pdf_report ⟨some 7⟩ [] (some (perform_comprehensive_analysis demoTable)) []
        "now" "report.pdf").1 = none ∧
      (generate_pdf_report ⟨some 7⟩ [] (some (perform_comprehensive_analysis demoTable)) []
          "now" "report.pdf").2.lookup "report.pdf" =
        some (strTake (serializeDoc (generate_pdf_doc
          (some (perform_comprehensive_analysis demoTable)) [] "now")) 7) :=
  report_error_on_write_failure ⟨some 7⟩ [] (some (perform_comprehensive_analysis demoTable))
    [] "now" "report.pdf" 7 rfl

/-! ## C10: all-null columns -/

theorem lookup_map_name {β : Type} (f : Col → β) :
    ∀ (l : List Col) (c : Col), c ∈ l → (l.map Col.name).Nodup →
      (l.map (fun d => (d.name, f d))).lookup c.name = some (f c) := by
  intro l
  induction l with
  | nil => intro c hc; simp at hc
  | cons d ds ih =>
    intro c hc hnd
    rw [List.map_cons] at hnd
    have hnd2 := List.nodup_cons.mp hnd
    by_cases he : c.name = d.name
    · have hcd : c = d := by
        rcases List.mem_cons.mp hc with h | h
        · exact h
        · exfalso
          have : c.name ∈ ds.map Col.name := List.mem_map.mpr ⟨c, h, rfl⟩
          rw [he] at this
          exact hnd2.1 this
      subst hcd
      simp [List.lookup]
    · have hbe : (c.name == d.name) = false := by
        simp [he]
      have hct : c ∈ ds := by
        rcases List.mem_cons.mp hc with h | h
        · exact absurd (congrArg Col.name h) he
        · exact h
      simp only [List.map_cons, List.lookup, hbe]
      exact ih c hct hnd2.2

/-- C10: a fully null column is classified categorical (never numeric) and
its categorical statistics are `unique_count = 0` with an empty
`top_categories` mapping.  The dtype comes from the loader, which is not
in the repository source; it is modelled from the spec (§4.1 with the §9
policy that all-null columns are categorical). -/
theorem allnull_categorical (t : Table) (hw : t.Wf) (c : Col) (hc : c ∈ t)
    (hnull : ∀ v ∈ c.values, v = none) :
    c.name ∉ (perform_comprehensive_analysis t).numeric_columns ∧
      c.name ∈ (perform_comprehensive_analysis t).categorical_columns ∧
      (perform_comprehensive_analysis t).categorical_stats.lookup c.name =
        some ⟨0, []⟩ := by
  have hnn : c.nonNull = [] := by
    unfold Col.nonNull
    rw [List.filterMap_eq_nil_iff]
    intro a ha
    exact hnull a ha
  have hdt : c.dtype = Dtype.categorical := by
    unfold Col.dtype
    rw [hnn]
    simp
  refine ⟨?_, ?_, ?_⟩
  · intro hmem
    simp only [perform_comprehensive_analysis, List.mem_map] at hmem
    obtain ⟨c2, hc2, hname⟩ := hmem
    have hc2t : c2 ∈ t := List.mem_of_mem_filter hc2
    have hc2dt : c2.dtype = Dtype.numeric := by
      have h2 := (List.mem_filter.mp hc2).2
      simpa using h2
    have hce : c2 = c := List.inj_on_of_nodup_map hw.2 hc2t hc hname
    rw [hce, hdt] at hc2dt
    cases hc2dt
  · simp only [perform_comprehensive_analysis, List.mem_map]
    exact ⟨c, List.mem_filter.mpr ⟨hc, by simp [hdt]⟩, rfl⟩
  · have hsub : ((t.filter (fun d => d.dtype = Dtype.categorical)).map Col.name).Nodup :=
      hw.2.sublist (List.Sublist.map Col.name (List.filter_sublist t))
    have hl := lookup_map_name (fun d => CatStats.ofList d.nonNull)
      (t.filter (fun d => d.dtype = Dtype.categorical)) c
      (List.mem_filter.mpr ⟨hc, by simp [hdt]⟩) hsub
    simp only [perform_comprehensive_analysis]
    rw [hl]
    show some (CatStats.ofList c.nonNull) = _
    rw [hnn]
    rfl

/-- Witness for C10 at the fully null `Notes` column of the demo frame. -/
theorem allnull_categorical_w :
    "Notes" ∉ (perform_comprehensive_analysis demoTable).numeric_columns ∧
      "Notes" ∈ (perform_comprehensive_analysis demoTable).categorical_columns ∧
      (perform_comprehensive_analysis demoTable).categorical_stats.lookup "Notes" =
        some ⟨0, []⟩ :=
  allnull_categorical demoTable (by decide) ⟨"Notes", [none, none, none, none]⟩ (by decide)
    (by decide)

/-! ## C8: data quality assessment -/

theorem ne_of_data_head {s t : String} (h : s.data.head? ≠ t.data.head?) : s ≠ t :=
  fun he => h (by rw [he])

theorem data_head_append (p x : String) (c : Char) (hp : p.data.head? = some c) :
    (p ++ x).data.head? = some c := by
  rw [String.data_append, List.head?_append, hp]
  rfl

/-- C8: the rendered Data Quality Assessment computes the completeness
score as `100 * (1 - total_missing / (rows * cols))` with `0` when
`rows * cols = 0`, the duplicate rate as `duplicates / rows * 100` with
`0` when `rows = 0`, labels the volume `Large` above 10000 rows, `Medium`
above 1000, else `Small`, and shows the "Good mix" diversity line exactly
when both the numeric and the categorical column lists are nonempty. -/
theorem quality_metrics_spec (r : AnalysisResult) :
    (completeness_score (some r)).toRat =
        (if 0 < r.shape.1 * r.shape.2 then
          100 * (1 - (totalMissing r : ℚ) / ((r.shape.1 * r.shape.2 : Nat) : ℚ)) else 0) ∧
      (duplicate_rate (some r)).toRat =
        (if 0 < r.shape.1 then (r.duplicates : ℚ) / (r.shape.1 : ℚ) * 100 else 0) ∧
      (quality_metrics (some r)).getD 2 "" =
        "Data Volume: " ++ (if 10000 < r.shape.1 then "Large"
          else if 1000 < r.shape.1 then "Medium" else "Small") ++ " dataset" ∧
      (goodMixLine ∈ quality_metrics (some r) ↔
        (r.numeric_columns ≠ [] ∧ r.categorical_columns ≠ [])) := by
  have hs : getShape (some r) = r.shape := by simp [getShape]
  have hm : getMissingTotal (some r) = totalMissing r := by simp [getMissingTotal]
  have hd : getDuplicates (some r) = r.duplicates := by simp [getDuplicates]
  refine ⟨?_, ?_, ?_, ?_⟩
  · unfold completeness_score
    rw [hs, hm]
    split
    · simp
    · simp
  · unfold duplicate_rate
    rw [hs, hd]
    split
    · simp
    · simp
  · simp [quality_metrics, volumeLabel, hs]
  · have h0 : goodMixLine ≠ "Completeness Score: " ++ fmt1F (completeness_score (some r)) ++ "%" := by
      apply ne_of_data_head
      rw [data_head_append _ _ 'C' (data_head_append _ _ 'C' (by decide))]
      decide
    have h1 : goodMixLine ≠ "Duplicate Rate: " ++ fmt1F (duplicate_rate (some r)) ++ "%" := by
      apply ne_of_data_head
      rw [data_head_append _ _ 'D' (data_head_append _ _ 'D' (by decide))]
      decide
    have h2 : goodMixLine ≠ "Data Volume: " ++ volumeLabel (getShape (some r)).1 ++ " dataset" := by
      apply ne_of_data_head
      rw [data_head_append _ _ 'D' (data_head_append _ _ 'D' (by decide))]
      decide
    have hnum : getNumericCount (some r) = r.numeric_columns.length := by simp [getNumericCount]
    have hcat : getCatCount (some r) = r.categorical_columns.length := by simp [getCatCount]
    constructor
    · intro hmem
      simp only [quality_metrics, List.mem_cons, List.not_mem_nil, or_false] at hmem
      rcases hmem with hx | hx | hx | hx
      · exact absurd hx h0
      · exact absurd hx h1
      · exact absurd hx h2
      · by_cases hcond : 0 < getNumericCount (some r) ∧ 0 < getCatCount (some r)
        · rw [hnum, hcat] at hcond
          exact ⟨List.length_pos.mp hcond.1, List.length_pos.mp hcond.2⟩
        · rw [if_neg hcond] at hx
          exact absurd hx (by decide)
    · intro hne
      have hcond : 0 < getNumericCount (some r) ∧ 0 < getCatCount (some r) := by
        rw [hnum, hcat]
        exact ⟨List.length_pos.mpr hne.1, List.length_pos.mpr hne.2⟩
      simp only [quality_metrics, if_pos hcond, List.mem_cons]
      tauto

/-! ## C4: categorical statistics -/

theorem mem_insertDesc {x a : Cell × Nat} : ∀ {l}, a ∈ insertDesc x l ↔ a = x ∨ a ∈ l := by
  intro l
  induction l with
  | nil => simp [insertDesc]
  | cons y ys ih =>
    simp only [insertDesc]
    split
    · rw [List.mem_cons, ih, List.mem_cons]
      tauto
    · simp [List.mem_cons]

theorem pairwise_insertDesc_desc {x : Cell × Nat} :
    ∀ {l}, l.Pairwise (fun a b => b.2 ≤ a.2) →
      (insertDesc x l).Pairwise (fun a b => b.2 ≤ a.2) := by
  intro l
  induction l with
  | nil => intro _; simp [insertDesc]
  | cons y ys ih =>
    intro hp
    have hy := (List.pairwise_cons.mp hp).1
    have hys := (List.pairwise_cons.mp hp).2
    simp only [insertDesc]
    split
    · rename_i hxy
      refine List.pairwise_cons.mpr ⟨?_, ih hys⟩
      intro b hb
      rcases mem_insertDesc.mp hb with rfl | hbm
      · omega
      · exact hy b hbm
    · rename_i hxy
      refine List.pairwise_cons.mpr ⟨?_, hp⟩
      intro b hb
      rcases List.mem_cons.mp hb with rfl | hbm
      · omega
      · have := hy b hbm
        omega

theorem pairwise_sortDesc_desc (l : List (Cell × Nat)) :
    (sortDescByCount l).Pairwise (fun a b => b.2 ≤ a.2) := by
  unfold sortDescByCount
  induction l with
  | nil => simp
  | cons x xs ih => exact pairwise_insertDesc_desc ih

theorem mem_sortDesc {a : Cell × Nat} : ∀ {l}, a ∈ sortDescByCount l ↔ a ∈ l := by
  intro l
  induction l with
  | nil => simp [sortDescByCount]
  | cons x xs ih =>
    show a ∈ insertDesc x (sortDescByCount xs) ↔ _
    rw [mem_insertDesc, List.mem_cons, ih]

theorem pairwise_insertDesc_tie {R : Cell × Nat → Cell × Nat → Prop} {x : Cell × Nat} :
    ∀ {l}, (∀ b ∈ l, x.2 = b.2 → R x b) →
      l.Pairwise (fun a b => a.2 = b.2 → R a b) →
      (insertDesc x l).Pairwise (fun a b => a.2 = b.2 → R a b) := by
  intro l
  induction l with
  | nil => intro _ _; simp [insertDesc]
  | cons y ys ih =>
    intro hx hp
    have hy := (List.pairwise_cons.mp hp).1
    have hys := (List.pairwise_cons.mp hp).2
    simp only [insertDesc]
    split
    · rename_i hxy
      refine List.pairwise_cons.mpr
        ⟨?_, ih (fun b hb => hx b (List.mem_cons_of_mem y hb)) hys⟩
      intro b hb heq
      rcases mem_insertDesc.mp hb with rfl | hbm
      · exact absurd heq (by omega)
      · exact hy b hbm heq
    · refine List.pairwise_cons.mpr ⟨?_, hp⟩
      intro b hb heq
      exact hx b hb heq

theorem pairwise_sortDesc_tie {R : Cell × Nat → Cell × Nat → Prop} :
    ∀ {l}, l.Pairwise R →
      (sortDescByCount l).Pairwise (fun a b => a.2 = b.2 → R a b) := by
  intro l
  induction l with
  | nil => intro _; simp [sortDescByCount]
  | cons x xs ih =>
    intro hp
    have hx := (List.pairwise_cons.mp hp).1
    have hxs := (List.pairwise_cons.mp hp).2
    show (insertDesc x (sortDescByCount xs)).Pairwise _
    exact pairwise_insertDesc_tie (fun b hb _ => hx b (mem_sortDesc.mp hb)) (ih hxs)

theorem mem_firstUniquesAux {a : Cell} :
    ∀ {l seen}, a ∈ firstUniquesAux seen l ↔ (a ∈ l ∧ a ∉ seen) := by
  intro l
  induction l with
  | nil => intro seen; simp [firstUniquesAux]
  | cons x xs ih =>
    intro seen
    simp only [firstUniquesAux]
    split
    · rename_i hx
      rw [ih, List.mem_cons]
      constructor
      · rintro ⟨h1, h2⟩
        exact ⟨Or.inr h1, h2⟩
      · rintro ⟨h1 | h1, h2⟩
        · subst h1; exact absurd hx h2
        · exact ⟨h1, h2⟩
    · rename_i hx
      rw [List.mem_cons, List.mem_cons, ih]
      constructor
      · rintro (rfl | ⟨h1, h2⟩)
        · exact ⟨Or.inl rfl, hx⟩
        · refine ⟨Or.inr h1, fun hs => h2 (List.mem_cons_of_mem _ hs)⟩
      · rintro ⟨h1 | h1, h2⟩
        · exact Or.inl h1
        · by_cases hax : a = x
          · exact Or.inl hax
          · refine Or.inr ⟨h1, fun hs => ?_⟩
            rcases List.mem_cons.mp hs with h3 | h3
            · exact hax h3
            · exact h2 h3

theorem nodup_firstUniquesAux : ∀ {l seen : List Cell}, (firstUniquesAux seen l).Nodup := by
  intro l
  induction l with
  | nil => intro seen; simp [firstUniquesAux]
  | cons x xs ih =>
    intro seen
    simp only [firstUniquesAux]
    split
    · exact ih
    · refine List.nodup_cons.mpr ⟨?_, ih⟩
      intro hx
      exact (mem_firstUniquesAux.mp hx).2 (List.mem_cons_self _ _)

theorem pairwise_idx_firstUniquesAux :
    ∀ (l seen : List Cell),
      (firstUniquesAux seen l).Pairwise (fun a b => l.indexOf a < l.indexOf b) := by
  intro l
  induction l with
  | nil => intro seen; simp [firstUniquesAux]
  | cons x xs ih =>
    intro seen
    simp only [firstUniquesAux]
    split
    · rename_i hx
      refine List.Pairwise.imp_of_mem ?_ (ih seen)
      intro a b ha hb hab
      have ha2 := mem_firstUniquesAux.mp ha
      have hb2 := mem_firstUniquesAux.mp hb
      have hax : x ≠ a := fun he => ha2.2 (by rw [← he] at ha2 ⊢; exact hx)
      have hbx : x ≠ b := fun he => hb2.2 (by rw [← he] at hb2 ⊢; exact hx)
      rw [List.indexOf_cons_ne _ hax, List.indexOf_cons_ne _ hbx]
      omega
    · rename_i hx
      refine List.pairwise_cons.mpr ⟨?_, ?_⟩
      · intro b hb
        have hb2 := mem_firstUniquesAux.mp hb
        have hbx : x ≠ b := fun he => hb2.2 (by rw [← he]; exact List.mem_cons_self x seen)
        rw [List.indexOf_cons_self, List.indexOf_cons_ne _ hbx]
        omega
      · refine List.Pairwise.imp_of_mem ?_ (ih (x :: seen))
        intro a b ha hb hab
        have ha2 := mem_firstUniquesAux.mp ha
        have hb2 := mem_firstUniquesAux.mp hb
        have hax : x ≠ a := fun he => ha2.2 (by rw [← he]; exact List.mem_cons_self x seen)
        have hbx : x ≠ b := fun he => hb2.2 (by rw [← he]; exact List.mem_cons_self x seen)
        rw [List.indexOf_cons_ne _ hax, List.indexOf_cons_ne _ hbx]
        omega

theorem value_counts_pairwise (xs : List Cell) :
    (value_counts xs).Pairwise (fun a b => b.2 ≤ a.2 ∧
      (a.2 = b.2 → xs.indexOf a.1 < xs.indexOf b.1)) := by
  have h1 : (value_counts xs).Pairwise (fun a b => b.2 ≤ a.2) := pairwise_sortDesc_desc _
  have h2 : (value_counts xs).Pairwise
      (fun a b => a.2 = b.2 → xs.indexOf a.1 < xs.indexOf b.1) := by
    unfold value_counts
    apply pairwise_sortDesc_tie
    rw [List.pairwise_map]
    exact pairwise_idx_firstUniquesAux xs []
  exact h1.and h2

theorem firstUniques_length (xs : List Cell) :
    (firstUniques xs).length = xs.toFinset.card := by
  have hnd : (firstUniques xs).Nodup := nodup_firstUniquesAux
  have hfe : (firstUniques xs).toFinset = xs.toFinset := by
    ext a
    simp only [List.mem_toFinset]
    rw [show firstUniques xs = firstUniquesAux [] xs from rfl, mem_firstUniquesAux]
    simp
  rw [← hfe, List.toFinset_card_of_nodup hnd]

/-- C4: for every categorical column, the stored statistics hold the
first five entries of the count-descending value ranking — at most 5
entries, counts nonincreasing, ties ordered by the position of the first
appearance of the value among the column's non-null cells — and
`unique_count` is the number of distinct non-null values.  (Null cells
are missing data, not values: `nunique()` and `value_counts()` drop
them, which is also what makes `unique_count = 0` for all-null columns.)
The value-count tie order itself is library-internal and is modelled from
the spec, see `value_counts`. -/
theorem cat_stats_spec (t : Table) (hw : t.Wf) (c : Col) (hc : c ∈ t)
    (hcat : c.name ∈ (perform_comprehensive_analysis t).categorical_columns) :
    ∃ st, (perform_comprehensive_analysis t).categorical_stats.lookup c.name = some st ∧
      st.top_categories.length ≤ 5 ∧
      st.top_categories.Pairwise (fun a b => b.2 ≤ a.2 ∧
        (a.2 = b.2 → c.nonNull.indexOf a.1 < c.nonNull.indexOf b.1)) ∧
      st.unique_count = c.nonNull.toFinset.card := by
  have hdt : c.dtype = Dtype.categorical := by
    simp only [perform_comprehensive_analysis, List.mem_map] at hcat
    obtain ⟨c2, hc2, hname⟩ := hcat
    have hc2t : c2 ∈ t := List.mem_of_mem_filter hc2
    have hce : c2 = c := List.inj_on_of_nodup_map hw.2 hc2t hc hname
    have h2 := (List.mem_filter.mp hc2).2
    rw [hce] at h2
    simpa using h2
  have hsub : ((t.filter (fun d => d.dtype = Dtype.categorical)).map Col.name).Nodup :=
    hw.2.sublist (List.Sublist.map Col.name (List.filter_sublist t))
  have hl := lookup_map_name (fun d => CatStats.ofList d.nonNull)
    (t.filter (fun d => d.dtype = Dtype.categorical)) c
    (List.mem_filter.mpr ⟨hc, by simp [hdt]⟩) hsub
  refine ⟨CatStats.ofList c.nonNull, ?_, ?_, ?_, ?_⟩
  · simp only [perform_comprehensive_analysis]
    exact hl
  · show ((value_counts c.nonNull).take 5).length ≤ 5
    simp [List.length_take]
  · show ((value_counts c.nonNull).take 5).Pairwise _
    exact (value_counts_pairwise c.nonNull).take
  · exact firstUniques_length c.nonNull

/-- Column with tied counts: `X` and `Y` both occur twice, `X` first. -/
def colFlag : Col := ⟨"Flag", [strCell "X", strCell "Y", strCell "Y", strCell "X", strCell "Z"]⟩

def tieTable : Table := [colFlag]

/-- Witness for C4 at a column with tied counts. -/
theorem cat_stats_spec_w :
    ∃ st, (perform_comprehensive_analysis tieTable).categorical_stats.lookup colFlag.name =
        some st ∧
      st.top_categories.length ≤ 5 ∧
      st.top_categories.Pairwise (fun a b => b.2 ≤ a.2 ∧
        (a.2 = b.2 → colFlag.nonNull.indexOf a.1 < colFlag.nonNull.indexOf b.1)) ∧
      st.unique_count = colFlag.nonNull.toFinset.card :=
  cat_stats_spec tieTable (by decide) colFlag (by decide) (by decide)

/-! ## C2: the correlation insight -/

/-- Default column (out-of-range access placeholder for `getD`). -/
def dcol : Col := ⟨"", []⟩

/-- The numeric columns selected by the analysis, in frame order. -/
def numColsOf (t : Table) : List Col := t.filter (fun c => c.dtype = Dtype.numeric)

/-- The real-number reading of "the absolute Pearson correlation exceeds
0.7" for an exactly represented correlation entry
`r = cov / sqrt (sxx * syy)`: the variance product is positive (a NaN
entry fails every comparison) and `0.7 * sqrt (sxx * syy) < |cov|`. -/
def HighPearson (c : Corr) : Prop :=
  0 < c.den2.toRat ∧ (7 : ℝ) / 10 * Real.sqrt ((c.den2.toRat : ℝ)) < |((c.cov.toRat : ℝ))|

theorem pearson_threshold (D cv : ℝ) (hD : 0 < D) :
    (7 : ℝ) / 10 * Real.sqrt D < |cv| ↔ 49 * D < 100 * (cv * cv) := by
  have h1 : (7 : ℝ) / 10 * Real.sqrt D = Real.sqrt (49 / 100 * D) := by
    rw [Real.sqrt_mul (by norm_num : (0 : ℝ) ≤ 49 / 100)]
    rw [show (49 : ℝ) / 100 = (7 / 10) ^ 2 by norm_num,
      Real.sqrt_sq (by norm_num : (0 : ℝ) ≤ 7 / 10)]
  have h2 : |cv| = Real.sqrt (cv ^ 2) := (Real.sqrt_sq_eq_abs cv).symm
  rw [h1, h2, Real.sqrt_lt_sqrt_iff (by positivity)]
  constructor
  · intro h; nlinarith
  · intro h; nlinarith

theorem highCorrB_iff (c : Corr) : highCorrB c = true ↔ HighPearson c := by
  unfold highCorrB HighPearson
  rw [Bool.and_eq_true, decide_eq_true_eq, Frac.blt_iff]
  simp only [Frac.toRat_mul, Frac.toRat_ofInt]
  rw [Frac.num_pos_iff]
  constructor
  · rintro ⟨hD, hcmp⟩
    refine ⟨hD, ?_⟩
    have hDR : (0 : ℝ) < ((c.den2.toRat : ℝ)) := by exact_mod_cast hD
    have hcmpR : (49 : ℝ) * ((c.den2.toRat : ℝ)) <
        100 * (((c.cov.toRat : ℝ)) * ((c.cov.toRat : ℝ))) := by exact_mod_cast hcmp
    exact (pearson_threshold _ _ hDR).mpr hcmpR
  · rintro ⟨hD, habs⟩
    have hDR : (0 : ℝ) < ((c.den2.toRat : ℝ)) := by exact_mod_cast hD
    have := (pearson_threshold _ _ hDR).mp habs
    exact ⟨hD, by exact_mod_cast this⟩

theorem getD_map_entry {α β : Type} (f : α → β) (l : List α) (i : Nat) (d : β) (d' : α)
    (hi : i < l.length) : (l.map f).getD i d = f (l.getD i d') := by
  have h1 : (l.map f).getD i d = f l[i] := by
    rw [List.getD_eq_getElem?_getD, List.getElem?_map, List.getElem?_eq_getElem hi]
    rfl
  have h2 : l.getD i d' = l[i] := by
    rw [List.getD_eq_getElem?_getD, List.getElem?_eq_getElem hi]
    rfl
  rw [h1, h2]

theorem corr_matrix_entry (cols : List Col) (i j : Nat) (hi : i < cols.length)
    (hj : j < cols.length) :
    ((cols.map (fun c1 => cols.map (fun c2 => pairCorr c1 c2))).getD i []).getD j
        ⟨Frac.ofInt 0, Frac.ofInt 0⟩ =
      pairCorr (cols.getD i dcol) (cols.getD j dcol) := by
  rw [getD_map_entry (fun c1 => cols.map (fun c2 => pairCorr c1 c2)) cols i [] dcol hi]
  rw [getD_map_entry (fun c2 => pairCorr (cols.getD i dcol) c2) cols j
    ⟨Frac.ofInt 0, Frac.ofInt 0⟩ dcol hj]

/-- The qualifying index pairs in the source's iteration order: `i`
ascending, `j` over `range(i+1, n)`, keeping exactly the pairs of distinct
numeric columns whose correlation passes the `> 0.7` test. -/
def qualifyingPairs (t : Table) : List (Nat × Nat) :=
  (List.range (numColsOf t).length).flatMap (fun i =>
    (List.range' (i + 1) ((numColsOf t).length - (i + 1))).filterMap (fun j =>
      if highCorrB (pairCorr ((numColsOf t).getD i dcol) ((numColsOf t).getD j dcol))
      then some (i, j) else none))

/-- The source's `f"{col_i} & {col_j} ({corr:.2f})"` for one pair. -/
def renderPair (t : Table) (p : Nat × Nat) : String :=
  ((numColsOf t).map Col.name).getD p.1 "" ++ " & " ++ ((numColsOf t).map Col.name).getD p.2 ""
    ++ " (" ++ corrValStr (pairCorr ((numColsOf t).getD p.1 dcol) ((numColsOf t).getD p.2 dcol))
    ++ ")"

theorem flatMap_congr {α β : Type} {f g : α → List β} :
    ∀ {l : List α}, (∀ a ∈ l, f a = g a) → l.flatMap f = l.flatMap g := by
  intro l
  induction l with
  | nil => intro _; rfl
  | cons x xs ih =>
    intro h
    rw [List.flatMap_cons, List.flatMap_cons, h x (List.mem_cons_self _ _),
      ih (fun a ha => h a (List.mem_cons_of_mem _ ha))]

theorem corrPairStrings_eq (t : Table) :
    corrPairStrings ((numColsOf t).map Col.name)
        ((numColsOf t).map (fun c1 => (numColsOf t).map (fun c2 => pairCorr c1 c2))) =
      (qualifyingPairs t).map (renderPair t) := by
  unfold corrPairStrings qualifyingPairs
  rw [List.map_flatMap, List.length_map]
  apply flatMap_congr
  intro i hi
  rw [List.mem_range] at hi
  rw [List.map_filterMap]
  apply List.filterMap_congr
  intro j hj
  rw [List.mem_range'_1] at hj
  rw [corr_matrix_entry (numColsOf t) i j hi (by omega)]
  rw [apply_ite (Option.map (renderPair t))]
  simp only [Option.map_some', Option.map_none']
  rfl

theorem mem_qualifyingPairs {t : Table} {p : Nat × Nat} :
    p ∈ qualifyingPairs t ↔ p.1 < p.2 ∧ p.2 < (numColsOf t).length ∧
      highCorrB (pairCorr ((numColsOf t).getD p.1 dcol) ((numColsOf t).getD p.2 dcol)) = true := by
  unfold qualifyingPairs
  rw [List.mem_flatMap]
  constructor
  · rintro ⟨i, hi, hmem⟩
    rw [List.mem_filterMap] at hmem
    obtain ⟨j, hj, hcond⟩ := hmem
    rw [List.mem_range'_1] at hj
    rw [List.mem_range] at hi
    split at hcond
    · rename_i hq
      simp only [Option.some.injEq] at hcond
      subst hcond
      exact ⟨by omega, by omega, hq⟩
    · cases hcond
  · rintro ⟨hij, hn, hq⟩
    refine ⟨p.1, List.mem_range.mpr (by omega), ?_⟩
    rw [List.mem_filterMap]
    refine ⟨p.2, List.mem_range'_1.mpr ⟨by omega, by omega⟩, ?_⟩
    rw [if_pos hq]

/-- An insight of the correlation category can only come from the
correlation step. -/
theorem mem_insights_corr {r : AnalysisResult} {ins : Insight}
    (hins : ins ∈ generate_ai_insights (some r))
    (hcat : ins.cat = InsightCat.correlation) : corrIns r = some ins := by
  unfold generate_ai_insights at hins
  simp only [List.mem_append, List.mem_singleton] at hins
  rcases hins with ((((h | h) | h) | h) | h) | h
  · rw [h] at hcat
    simp at hcat
  · have hm : missingIns r = some ins := Option.mem_def.mp (Option.mem_toList.mp h)
    rw [missingIns_cat hm] at hcat
    simp at hcat
  · have hm : numericIns r = some ins := Option.mem_def.mp (Option.mem_toList.mp h)
    rw [numericIns_cat hm] at hcat
    simp at hcat
  · have hm : categoricalIns r = some ins := Option.mem_def.mp (Option.mem_toList.mp h)
    rw [categoricalIns_cat hm] at hcat
    simp at hcat
  · exact Option.mem_def.mp (Option.mem_toList.mp h)
  · have hm : dupIns r = some ins := Option.mem_def.mp (Option.mem_toList.mp h)
    rw [dupIns_cat hm] at hcat
    simp at hcat

theorem corrIns_mem_insights {r : AnalysisResult} {ins : Insight}
    (h : corrIns r = some ins) : ins ∈ generate_ai_insights (some r) := by
  unfold generate_ai_insights
  simp only [List.mem_append]
  exact Or.inl (Or.inr (by simp [h]))

/-- The generic content of C2 for one frame: the correlation insight is
emitted iff some pair of distinct numeric columns (in `i < j` position
order) has absolute Pearson correlation above 0.7, and when emitted its
text lists exactly the qualifying pairs in that iteration order, capped
to the first three. -/
def CorrGenSpec (t : Table) : Prop :=
  ((∃ ins ∈ generate_ai_insights (some (perform_comprehensive_analysis t)),
      ins.cat = InsightCat.correlation) ↔
    (∃ i j, i < j ∧ j < (numColsOf t).length ∧
      HighPearson (pairCorr ((numColsOf t).getD i dcol) ((numColsOf t).getD j dcol)))) ∧
  (∀ ins ∈ generate_ai_insights (some (perform_comprehensive_analysis t)),
    ins.cat = InsightCat.correlation →
      ins.text = corrHeader ++
        String.intercalate ", " (((qualifyingPairs t).map (renderPair t)).take 3))

/-- Columns with Pearson correlation exactly `19/20 = 0.95`
(`cov = 1900`, `sxx = 100`, `syy = 40000`). -/
def colA : Col := ⟨"A", [numCell 1, numCell 0, numCell 7, numCell (-1), numCell (-7)]⟩

def colB : Col := ⟨"B", [numCell 74, numCell (-20), numCell 118, numCell (-34), numCell (-138)]⟩

def tblCorr95 : Table := [colA, colB]

set_option maxRecDepth 4000 in
/-- C2: for every analyzed frame with at least two numeric columns the
correlation insight is emitted iff some `i < j` pair of numeric columns
has absolute Pearson correlation above 0.7, and the emitted text lists the
qualifying pairs in `i < j` iteration order capped to the first three;
moreover on a pair of columns whose Pearson correlation is exactly 0.95
the generated insight names both columns and shows "0.95". -/
theorem corr_insight_spec :
    (∀ t : Table, t.Wf → 2 ≤ (numColsOf t).length → CorrGenSpec t) ∧
      ((pairCorr colA colB).cov.toRat : ℝ) /
          Real.sqrt (((pairCorr colA colB).den2.toRat : ℝ)) = 19 / 20 ∧
      Insight.mk InsightCat.correlation (corrHeader ++ "A & B (0.95)") ∈
        generate_ai_insights (some (perform_comprehensive_analysis tblCorr95)) := by
  refine ⟨?_, ?_, by decide⟩
  · intro t hw hn
    have h2 : 1 < (t.filter (fun c => c.dtype = Dtype.numeric)).length := by
      have h3 := hn
      unfold numColsOf at h3
      omega
    have hcm : (perform_comprehensive_analysis t).correlation_matrix =
        some ((numColsOf t).map Col.name,
          (numColsOf t).map (fun c1 => (numColsOf t).map (fun c2 => pairCorr c1 c2))) := by
      unfold perform_comprehensive_analysis
      dsimp only
      rw [if_pos h2]
      rfl
    have hci : corrIns (perform_comprehensive_analysis t) =
        (if (qualifyingPairs t).map (renderPair t) ≠ [] then
          some ⟨InsightCat.correlation, corrHeader ++
            String.intercalate ", " (((qualifyingPairs t).map (renderPair t)).take 3)⟩
        else none) := by
      unfold corrIns
      rw [hcm]
      dsimp only
      rw [corrPairStrings_eq]
    constructor
    · constructor
      · rintro ⟨ins, hins, hcat⟩
        have hsome := mem_insights_corr hins hcat
        rw [hci] at hsome
        by_cases hne : (qualifyingPairs t).map (renderPair t) ≠ []
        · have hq : qualifyingPairs t ≠ [] := by
            intro h0
            rw [h0] at hne
            exact hne rfl
          obtain ⟨p, hp⟩ := List.exists_mem_of_ne_nil _ hq
          have hm := mem_qualifyingPairs.mp hp
          exact ⟨p.1, p.2, hm.1, hm.2.1, (highCorrB_iff _).mp hm.2.2⟩
        · rw [if_neg hne] at hsome
          cases hsome
      · rintro ⟨i, j, hij, hjn, hp⟩
        have hq := (highCorrB_iff _).mpr hp
        have hmem : (i, j) ∈ qualifyingPairs t := mem_qualifyingPairs.mpr ⟨hij, hjn, hq⟩
        have hne : (qualifyingPairs t).map (renderPair t) ≠ [] := by
          intro h0
          rw [List.map_eq_nil_iff] at h0
          rw [h0] at hmem
          cases hmem
        refine ⟨⟨InsightCat.correlation, corrHeader ++
          String.intercalate ", " (((qualifyingPairs t).map (renderPair t)).take 3)⟩, ?_, rfl⟩
        exact corrIns_mem_insights (by rw [hci, if_pos hne])
    · intro ins hins hcat
      have hsome := mem_insights_corr hins hcat
      rw [hci] at hsome
      by_cases hne : (qualifyingPairs t).map (renderPair t) ≠ []
      · rw [if_pos hne] at hsome
        simp only [Option.some.injEq] at hsome
        rw [← hsome]
      · rw [if_neg hne] at hsome
        cases hsome
  · have hc : (pairCorr colA colB).cov = ⟨18554687500, 9765625, by norm_num⟩ := by decide
    have hd : (pairCorr colA colB).den2 =
        ⟨381469726562500000000, 95367431640625, by norm_num⟩ := by decide
    have h1 : (pairCorr colA colB).cov.toRat = 1900 := by
      rw [hc]
      norm_num [Frac.toRat]
    have h2 : (pairCorr colA colB).den2.toRat = 4000000 := by
      rw [hd]
      norm_num [Frac.toRat]
    rw [h1, h2]
    push_cast
    rw [show (4000000 : ℝ) = 2000 ^ 2 by norm_num,
      Real.sqrt_sq (by norm_num : (0 : ℝ) ≤ 2000)]
    norm_num

/-- Witness for C2 at the exact-0.95 frame. -/
theorem corr_insight_spec_w : CorrGenSpec tblCorr95 :=
  corr_insight_spec.1 tblCorr95 (by decide) (by decide)
